import Mathlib

/-!
# Verification of the Connexin scraper pipeline

Shallow embedding of the scraper repository (`src/cli.py`, `src/scraper.py`,
`src/src/confluence_client.py`, `src/src/jira_client.py`,
`src/src/document_processor.py`) and proofs about the claims of its
specification.

External collaborators (the HTTP transport, the JSON codec, the
BeautifulSoup HTML parser, the file system) are modelled as injected
capabilities or as already-decoded values; everything the repository's own
Python code does to those values is translated here operation by operation,
including the `dict.get` / `dict[...]` / truthiness / exception semantics
the code relies on.
-/

namespace Scraper

/-! ## Python-style JSON values and dictionary semantics -/

/-- A decoded JSON value, as returned by `response.json()` / `json.load`.
`obj` keeps the key/value pairs in insertion order (Python dict order);
keys are unique in values produced by the JSON codec. -/
inductive JVal where
  | null
  | bool (b : Bool)
  | num (n : Int)
  | str (s : String)
  | arr (xs : List JVal)
  | obj (kvs : List (String × JVal))
deriving Repr

mutual

/-- Python `==` restricted to JSON data. -/
def JVal.beq : JVal → JVal → Bool
  | .null, .null => true
  | .bool a, .bool b => a == b
  | .num a, .num b => a == b
  | .str a, .str b => a == b
  | .arr xs, .arr ys => JVal.beqArr xs ys
  | .obj xs, .obj ys => JVal.beqObj xs ys
  | _, _ => false

def JVal.beqArr : List JVal → List JVal → Bool
  | [], [] => true
  | x :: xs, y :: ys => JVal.beq x y && JVal.beqArr xs ys
  | _, _ => false

def JVal.beqObj : List (String × JVal) → List (String × JVal) → Bool
  | [], [] => true
  | (k₁, v₁) :: xs, (k₂, v₂) :: ys => k₁ == k₂ && JVal.beq v₁ v₂ && JVal.beqObj xs ys
  | _, _ => false

end

instance : BEq JVal := ⟨JVal.beq⟩

/-- Python `d.get(k, default)`: on a dict, look the key up (a key bound to
`null` returns `null`, not the default); calling `.get` on any non-dict
value raises `AttributeError`, modelled as `Except.error`. -/
def pyGet (j : JVal) (k : String) (d : JVal) : Except Unit JVal :=
  match j with
  | .obj kvs => .ok ((kvs.lookup k).getD d)
  | _ => .error ()

/-- Python `d[k]`: `KeyError` when the key is missing, `TypeError` when the
value is not a dict. -/
def pyIndex (j : JVal) (k : String) : Except Unit JVal :=
  match j with
  | .obj kvs =>
    match kvs.lookup k with
    | some v => .ok v
    | none => .error ()
  | _ => .error ()

/-- Python truthiness of a JSON value. -/
def truthy : JVal → Bool
  | .null => false
  | .bool b => b
  | .num n => n != 0
  | .str s => !s.isEmpty
  | .arr xs => !xs.isEmpty
  | .obj kvs => !kvs.isEmpty

mutual

/-- Python `repr` of a JSON value (used by `str` on containers). String
escaping inside `repr` is not modelled beyond quoting. -/
def pyRepr : JVal → String
  | .null => "None"
  | .bool true => "True"
  | .bool false => "False"
  | .num n => toString n
  | .str s => "'" ++ s ++ "'"
  | .arr xs => "[" ++ String.intercalate ", " (pyReprArr xs) ++ "]"
  | .obj kvs => "\x7b" ++ String.intercalate ", " (pyReprObj kvs) ++ "\x7d"

def pyReprArr : List JVal → List String
  | [] => []
  | x :: xs => pyRepr x :: pyReprArr xs

def pyReprObj : List (String × JVal) → List String
  | [] => []
  | (k, v) :: kvs => ("'" ++ k ++ "': " ++ pyRepr v) :: pyReprObj kvs

end

/-- Python `str(x)` / f-string interpolation of a JSON value. -/
def pyStr : JVal → String
  | .str s => s
  | j => pyRepr j

/-- Python `s.lower()` on a string (ASCII case mapping). -/
def pyLowerString (s : String) : String := String.mk (s.data.map Char.toLower)

/-- Python `x.lower()`: only strings have `.lower`; anything else raises
`AttributeError`. -/
def pyLower : JVal → Except Unit String
  | .str s => .ok (pyLowerString s)
  | _ => .error ()

/-- Executable prefix test on character lists. -/
def isPrefixCh : List Char → List Char → Bool
  | [], _ => true
  | _ :: _, [] => false
  | a :: as, b :: bs => a == b && isPrefixCh as bs

/-- Executable substring test on character lists (Python `needle in hay`
for strings). -/
def containsSeq (needle : List Char) : List Char → Bool
  | [] => needle.isEmpty
  | b :: bs => isPrefixCh needle (b :: bs) || containsSeq needle bs

/-- Python `k in x` for a string key: dict → key membership, list → element
membership, string → substring test, otherwise `TypeError`. -/
def pyIn (k : String) (j : JVal) : Except Unit Bool :=
  match j with
  | .obj kvs => .ok (kvs.any (fun kv => kv.1 == k))
  | .arr xs => .ok (xs.any (fun x => x == JVal.str k))
  | .str s => .ok (containsSeq k.data s.data)
  | _ => .error ()

/-- Python `for x in v`: lists yield elements, strings yield 1-character
strings, dicts yield their keys, everything else raises `TypeError`. -/
def pyIter : JVal → Except Unit (List JVal)
  | .arr xs => .ok xs
  | .str s => .ok (s.data.map (fun c => JVal.str (String.mk [c])))
  | .obj kvs => .ok (kvs.map (fun kv => JVal.str kv.1))
  | _ => .error ()

/-- Python `len(v)`: defined for lists, strings and dicts, `TypeError`
otherwise. -/
def pyLen : JVal → Except Unit Nat
  | .arr xs => .ok xs.length
  | .str s => .ok s.length
  | .obj kvs => .ok kvs.length
  | _ => .error ()

/-! ## HTML text extraction (`ConfluenceClient.extract_text_from_html`) -/

/-- A parsed HTML fragment as handed back by the external parser
(`BeautifulSoup(html, 'html.parser')`): a tree of tags and text nodes with
entities already decoded. -/
inductive Html where
  | text (s : String)
  | tag (tagName : String) (children : List Html)
deriving Repr

/-- The tag names removed by `soup(["script", "style", "ac:macro"])` +
`decompose()`. -/
def blockedTags : List String := ["script", "style", "ac:macro"]

mutual

/-- `decompose()` of every `script`/`style`/`ac:macro` element: the node and
its entire content disappear from the soup. -/
def Html.decomposeBlocked : Html → Option Html
  | .text s => some (.text s)
  | .tag n cs =>
    if n ∈ blockedTags then none
    else some (.tag n (Html.decomposeBlockedList cs))

def Html.decomposeBlockedList : List Html → List Html
  | [] => []
  | h :: hs =>
    match Html.decomposeBlocked h with
    | none => Html.decomposeBlockedList hs
    | some h' => h' :: Html.decomposeBlockedList hs

end

mutual

/-- `soup.get_text()`: concatenation of every remaining text node, document
order, no separator. -/
def Html.getText : Html → String
  | .text s => s
  | .tag _ cs => Html.getTextList cs

def Html.getTextList : List Html → String
  | [] => ""
  | h :: hs => Html.getText h ++ Html.getTextList hs

end

/-- The characters Python `str.strip()` removes (whitespace). -/
def isPyWs (c : Char) : Bool :=
  c == ' ' || c == '\t' || c == '\n' || c == '\r' || c == '\x0b' || c == '\x0c' ||
  c == '\x1c' || c == '\x1d' || c == '\x1e' || c == '\x1f' || c == '\x85' || c == '\xa0' ||
  c == '\u1680' || (0x2000 ≤ c.toNat && c.toNat ≤ 0x200a) ||
  c == '\u2028' || c == '\u2029' || c == '\u202f' || c == '\u205f' || c == '\u3000'

/-- The line boundaries Python `str.splitlines()` splits on. -/
def isLineBreak (c : Char) : Bool :=
  c == '\n' || c == '\r' || c == '\x0b' || c == '\x0c' || c == '\x1c' || c == '\x1d' ||
  c == '\x1e' || c == '\x85' || c == '\u2028' || c == '\u2029'

/-- First phase of `str.splitlines()`: a `"\r\n"` pair counts as a single
boundary, so collapse each pair to `'\n'` before splitting. -/
def normCRLF : List Char → List Char
  | [] => []
  | '\r' :: '\n' :: rest => '\n' :: normCRLF rest
  | c :: rest => c :: normCRLF rest

/-- Worker for `str.splitlines()` after `"\r\n"` collapsing: split on every
line-break character; a trailing boundary does not produce a final empty
line. -/
def splitlinesGo (acc : List Char) : List Char → List (List Char)
  | [] => if acc.isEmpty then [] else [acc.reverse]
  | c :: rest =>
    if isLineBreak c then acc.reverse :: splitlinesGo [] rest
    else splitlinesGo (c :: acc) rest

/-- Python `text.splitlines()`. -/
def pySplitlines (cs : List Char) : List (List Char) := splitlinesGo [] (normCRLF cs)

/-- Python `s.strip()`. -/
def pyStrip (cs : List Char) : List Char :=
  (cs.dropWhile isPyWs).rdropWhile isPyWs

/-- Python `line.split("  ")`: exhaustive left-to-right split on two
consecutive spaces. -/
def splitTwoSp : List Char → List (List Char)
  | [] => [[]]
  | ' ' :: ' ' :: rest => [] :: splitTwoSp rest
  | c :: rest =>
    match splitTwoSp rest with
    | p :: ps => (c :: p) :: ps
    | [] => [[c]]

/-- Python `' '.join(pieces)`. -/
def joinSp : List (List Char) → List Char
  | [] => []
  | [p] => p
  | p :: ps => p ++ ' ' :: joinSp ps

/-- The whitespace clean-up of `extract_text_from_html` (lines 85-87 of
`confluence_client.py`):
`lines = (line.strip() for line in text.splitlines())`,
`chunks = (phrase.strip() for line in lines for phrase in line.split("  "))`,
`text = ' '.join(chunk for chunk in chunks if chunk)`. -/
def cleanWs (cs : List Char) : List Char :=
  let lines := (pySplitlines cs).map pyStrip
  let chunks := lines.flatMap (fun line => (splitTwoSp line).map pyStrip)
  joinSp (chunks.filter (fun c => !c.isEmpty))

/-- `ConfluenceClient.extract_text_from_html`, with the external parser
injected as a capability. The body removes `script`/`style`/`ac:macro`
elements, takes `get_text()` and collapses whitespace as in the source; the
`except` branch of the source (reached only when the parser itself raises)
is unreachable for a total parser and is therefore not represented. -/
def extract_text_from_html (parse : String → Html) (html : String) : String :=
  let soup := (parse html).decomposeBlocked
  let text := (soup.map Html.getText).getD ""
  String.mk (cleanWs text.data)

/-! ## Properties of the whitespace clean-up -/

/-- No two consecutive space characters. -/
def NoTwoSp (cs : List Char) : Prop := cs.Chain' (fun a b => ¬(a = ' ' ∧ b = ' '))

theorem isPyWs_space : isPyWs ' ' = true := rfl

theorem isLineBreak_space : isLineBreak ' ' = false := rfl

theorem normCRLF_mem (cs : List Char) : ∀ c ∈ normCRLF cs, c ∈ cs := by
  induction cs using normCRLF.induct with
  | case1 => simp [normCRLF]
  | case2 rest ih =>
    intro c hc
    simp only [normCRLF, List.mem_cons] at hc
    rcases hc with rfl | hc
    · simp
    · simp [ih c hc]
  | case3 c0 rest hne ih =>
    intro c hc
    rcases List.mem_cons.mp (by simpa [normCRLF, hne] using hc) with rfl | hc
    · exact List.mem_cons_self _ _
    · exact List.mem_cons_of_mem _ (ih c hc)

theorem normCRLF_of_no_break (cs : List Char) (h : ∀ c ∈ cs, isLineBreak c = false) :
    normCRLF cs = cs := by
  induction cs using normCRLF.induct with
  | case1 => rfl
  | case2 rest ih =>
    exfalso
    have := h '\r' (List.mem_cons_self _ _)
    simp [isLineBreak] at this
  | case3 c0 rest hne ih =>
    simp only [normCRLF, hne]
    rw [ih (fun c hc => h c (List.mem_cons_of_mem _ hc))]

theorem splitlinesGo_no_break (acc cs : List Char) (hacc : ∀ c ∈ acc, isLineBreak c = false) :
    ∀ line ∈ splitlinesGo acc cs, ∀ c ∈ line, isLineBreak c = false := by
  induction cs generalizing acc with
  | nil =>
    intro line hl c hc
    rw [splitlinesGo] at hl
    split at hl
    · simp at hl
    · simp at hl
      subst hl
      exact hacc c (List.mem_reverse.mp hc)
  | cons c0 rest ih =>
    intro line hl c hc
    rw [splitlinesGo] at hl
    split at hl
    · rcases List.mem_cons.mp hl with rfl | hl
      · exact hacc c (List.mem_reverse.mp hc)
      · exact ih [] (by simp) line hl c hc
    · refine ih (c0 :: acc) ?_ line hl c hc
      intro x hx
      rcases List.mem_cons.mp hx with rfl | hx
      · rename_i hbr
        simpa using hbr
      · exact hacc x hx

theorem pySplitlines_no_break (cs : List Char) :
    ∀ line ∈ pySplitlines cs, ∀ c ∈ line, isLineBreak c = false :=
  splitlinesGo_no_break [] (normCRLF cs) (by simp)

theorem splitlinesGo_of_no_break (acc cs : List Char) (h : ∀ c ∈ cs, isLineBreak c = false) :
    splitlinesGo acc cs =
      if (acc.reverse ++ cs).isEmpty then [] else [acc.reverse ++ cs] := by
  induction cs generalizing acc with
  | nil =>
    rw [splitlinesGo]
    rcases acc with _ | ⟨a, as⟩
    · simp
    · simp
  | cons c0 rest ih =>
    rw [splitlinesGo]
    have hc0 := h c0 (List.mem_cons_self _ _)
    rw [if_neg (by simp [hc0])]
    rw [ih (c0 :: acc) (fun c hc => h c (List.mem_cons_of_mem _ hc))]
    simp

theorem pySplitlines_of_no_break (cs : List Char) (hne : cs ≠ [])
    (h : ∀ c ∈ cs, isLineBreak c = false) : pySplitlines cs = [cs] := by
  rw [pySplitlines, normCRLF_of_no_break cs h, splitlinesGo_of_no_break [] cs h]
  simp [hne]

theorem splitlinesGo_mem (acc cs : List Char) :
    ∀ line ∈ splitlinesGo acc cs, ∀ c ∈ line, c ∈ acc ∨ c ∈ cs := by
  induction cs generalizing acc with
  | nil =>
    intro line hl c hc
    rw [splitlinesGo] at hl
    split at hl
    · simp at hl
    · simp at hl
      subst hl
      exact Or.inl (List.mem_reverse.mp hc)
  | cons c0 rest ih =>
    intro line hl c hc
    rw [splitlinesGo] at hl
    split at hl
    · rcases List.mem_cons.mp hl with rfl | hl
      · exact Or.inl (List.mem_reverse.mp hc)
      · rcases ih [] line hl c hc with h0 | h0
        · simp at h0
        · exact Or.inr (List.mem_cons_of_mem _ h0)
    · rcases ih (c0 :: acc) line hl c hc with h0 | h0
      · rcases List.mem_cons.mp h0 with rfl | h0
        · exact Or.inr (List.mem_cons_self _ _)
        · exact Or.inl h0
      · exact Or.inr (List.mem_cons_of_mem _ h0)

theorem pySplitlines_mem (cs : List Char) :
    ∀ line ∈ pySplitlines cs, ∀ c ∈ line, c ∈ cs := by
  intro line hl c hc
  rcases splitlinesGo_mem [] (normCRLF cs) line hl c hc with h | h
  · simp at h
  · exact normCRLF_mem cs c h

theorem pyStrip_isInfixIn (l : List Char) : pyStrip l <:+: l := by
  rw [List.infix_iff_prefix_suffix]
  refine ⟨l.dropWhile isPyWs, ?_, List.dropWhile_suffix _⟩
  simp only [pyStrip]
  exact List.rdropWhile_prefix _ _

theorem pyStrip_mem (l : List Char) : ∀ c ∈ pyStrip l, c ∈ l := by
  intro c hc
  exact (pyStrip_isInfixIn l).sublist.mem hc

theorem pyStrip_head (l : List Char) : ∀ c ∈ (pyStrip l).head?, isPyWs c = false := by
  intro c hc
  rw [Option.mem_def] at hc
  simp only [pyStrip] at hc
  have hne : List.rdropWhile isPyWs (l.dropWhile isPyWs) ≠ [] := by
    intro h0
    rw [h0] at hc
    simp at hc
  obtain ⟨t, ht⟩ := List.rdropWhile_prefix isPyWs (l.dropWhile isPyWs)
  have hdne : l.dropWhile isPyWs ≠ [] := by
    intro h0
    rw [h0] at ht hne
    simp [List.rdropWhile] at hne
  have h1 : (l.dropWhile isPyWs).head? = some c := by
    rw [← ht, List.head?_append, hc]
    rfl
  have h2 := List.head_dropWhile_not isPyWs l hdne
  rw [List.head?_eq_head hdne] at h1
  injection h1 with h1
  rw [h1] at h2
  exact h2

theorem pyStrip_getLast (l : List Char) : ∀ c ∈ (pyStrip l).getLast?, isPyWs c = false := by
  intro c hc
  rw [Option.mem_def] at hc
  simp only [pyStrip] at hc
  have hne : List.rdropWhile isPyWs (l.dropWhile isPyWs) ≠ [] := by
    intro h0
    rw [h0] at hc
    simp at hc
  have h2 := List.rdropWhile_last_not isPyWs (l.dropWhile isPyWs) hne
  rw [List.getLast?_eq_getLast _ hne] at hc
  injection hc with hc
  rw [hc] at h2
  simpa using h2

theorem pyStrip_noTwoSp (l : List Char) (h : NoTwoSp l) : NoTwoSp (pyStrip l) :=
  List.Chain'.infix h (pyStrip_isInfixIn l)

theorem pyStrip_eq_self (l : List Char) (hh : ∀ c ∈ l.head?, isPyWs c = false)
    (hl : ∀ c ∈ l.getLast?, isPyWs c = false) : pyStrip l = l := by
  rcases l with _ | ⟨c, cs⟩
  · rfl
  · have h1 : List.dropWhile isPyWs (c :: cs) = c :: cs := by
      rw [List.dropWhile_cons]
      have := hh c (by simp)
      simp [this]
    simp only [pyStrip]
    rw [h1, List.rdropWhile_eq_self_iff]
    intro hne
    have := hl ((c :: cs).getLast hne) (by rw [List.getLast?_eq_getLast _ hne]; rfl)
    simp [this]

theorem splitTwoSp_ne_nil (l : List Char) : splitTwoSp l ≠ [] := by
  induction l using splitTwoSp.induct with
  | case1 => simp [splitTwoSp]
  | case2 rest ih => simp [splitTwoSp]
  | case3 c rest h p ps hps ih => simp [splitTwoSp, h, hps]
  | case4 c rest h hnil ih => simp [splitTwoSp, h, hnil]

theorem splitTwoSp_first_head (l : List Char) (p : List Char) (ps : List (List Char))
    (h : splitTwoSp l = p :: ps) : p = [] ∨ p.head? = l.head? := by
  induction l using splitTwoSp.induct with
  | case1 => simp [splitTwoSp] at h; simp [h.1]
  | case2 rest ih => simp [splitTwoSp] at h; simp [h.1]
  | case3 c rest hne p' ps' hps ih =>
    simp [splitTwoSp, hne, hps] at h
    rw [← h.1]; simp
  | case4 c rest hne hnil ih =>
    simp [splitTwoSp, hne, hnil] at h
    rw [← h.1]; simp

theorem splitTwoSp_noTwoSp (l : List Char) : ∀ p ∈ splitTwoSp l, NoTwoSp p := by
  induction l using splitTwoSp.induct with
  | case1 => simp [splitTwoSp, NoTwoSp]
  | case2 rest ih => simpa [splitTwoSp, NoTwoSp] using ih
  | case3 c rest hne p' ps' hps ih =>
    intro p hp
    simp only [splitTwoSp, hne, hps, List.mem_cons] at hp
    rcases hp with rfl | hp
    · have hp' : NoTwoSp p' := ih p' (by rw [hps]; exact List.mem_cons_self _ _)
      refine List.chain'_cons'.mpr ⟨?_, hp'⟩
      intro y hy hcy
      rcases splitTwoSp_first_head rest p' ps' hps with h0 | hh
      · subst h0; simp at hy
      · rw [hh] at hy
        rcases rest with _ | ⟨r, rest'⟩
        · simp at hy
        · simp at hy
          exact hne rest' hcy.1 (by rw [hy, hcy.2])
    · exact ih p (by rw [hps]; exact List.mem_cons_of_mem _ hp)
  | case4 c rest hne hnil ih =>
    exact absurd hnil (splitTwoSp_ne_nil rest)

theorem splitTwoSp_mem (l : List Char) : ∀ p ∈ splitTwoSp l, ∀ c ∈ p, c ∈ l := by
  induction l using splitTwoSp.induct with
  | case1 => simp [splitTwoSp]
  | case2 rest ih =>
    intro p hp c hc
    simp only [splitTwoSp, List.mem_cons] at hp
    rcases hp with rfl | hp
    · simp at hc
    · simp [ih p hp c hc]
  | case3 c0 rest hne p' ps' hps ih =>
    intro p hp c hc
    simp only [splitTwoSp, hne, hps, List.mem_cons] at hp
    rcases hp with rfl | hp
    · rcases List.mem_cons.mp hc with rfl | hc
      · exact List.mem_cons_self _ _
      · exact List.mem_cons_of_mem _ (ih p' (by rw [hps]; exact List.mem_cons_self _ _) c hc)
    · exact List.mem_cons_of_mem _ (ih p (by rw [hps]; exact List.mem_cons_of_mem _ hp) c hc)
  | case4 c0 rest hne hnil ih =>
    exact absurd hnil (splitTwoSp_ne_nil rest)

theorem noTwoSp_splitTwoSp_eq (l : List Char) (h : NoTwoSp l) : splitTwoSp l = [l] := by
  induction l with
  | nil => rfl
  | cons c rest ih =>
    have hrest : NoTwoSp rest := (List.chain'_cons'.mp h).2
    have hne : ∀ rest', c = ' ' → rest = ' ' :: rest' → False := by
      intro rest' hc hr
      have := (List.chain'_cons'.mp h).1 ' ' (by rw [hr]; rfl)
      exact this ⟨hc, rfl⟩
    simp [splitTwoSp, hne, ih hrest]

/-- A chunk kept by the clean-up: non-empty, stripped at both ends, no two
consecutive spaces, no line breaks. -/
def GoodChunk (p : List Char) : Prop :=
  p ≠ [] ∧ (∀ c ∈ p.head?, isPyWs c = false) ∧ (∀ c ∈ p.getLast?, isPyWs c = false) ∧
    NoTwoSp p ∧ (∀ c ∈ p, isLineBreak c = false)

theorem joinSp_good (l : List (List Char)) (h : ∀ p ∈ l, GoodChunk p) :
    joinSp l = [] ∨ GoodChunk (joinSp l) := by
  induction l with
  | nil => exact Or.inl rfl
  | cons p ps ih =>
    rcases ps with _ | ⟨q, qs⟩
    · exact Or.inr (h p (List.mem_cons_self _ _))
    · right
      have hp := h p (List.mem_cons_self _ _)
      have hrest : GoodChunk (joinSp (q :: qs)) := by
        rcases ih (fun r hr => h r (List.mem_cons_of_mem _ hr)) with h0 | h0
        · exfalso
          have hq := h q (List.mem_cons_of_mem _ (List.mem_cons_self _ _))
          rcases qs with _ | ⟨r, rs⟩
          · exact hq.1 h0
          · rw [show joinSp (q :: r :: rs) = q ++ ' ' :: joinSp (r :: rs) from rfl] at h0
            simp at h0
        · exact h0
      have hjoin : joinSp (p :: q :: qs) = p ++ ' ' :: joinSp (q :: qs) := rfl
      rw [hjoin]
      obtain ⟨hpne, hph, hpl, hpc, hpbr⟩ := hp
      obtain ⟨hrne, hrh, hrl, hrc, hrbr⟩ := hrest
      refine ⟨by simp [hpne], ?_, ?_, ?_, ?_⟩
      · intro c hc
        rw [Option.mem_def, List.head?_append, List.head?_eq_head hpne] at hc
        simp at hc
        refine hph c ?_
        rw [List.head?_eq_head hpne, hc]
        rfl
      · intro c hc
        rw [Option.mem_def, List.getLast?_append_of_ne_nil _ (by simp)] at hc
        rw [show (' ' :: joinSp (q :: qs)) = [' '] ++ joinSp (q :: qs) from rfl,
          List.getLast?_append_of_ne_nil _ hrne] at hc
        exact hrl c hc
      · refine List.chain'_append.mpr ⟨hpc, ?_, ?_⟩
        · refine List.chain'_cons'.mpr ⟨?_, hrc⟩
          intro y hy hcy
          have := hrh y hy
          rw [hcy.2] at this
          rw [isPyWs_space] at this
          simp at this
        · intro x hx y hy hxy
          have := hpl x hx
          rw [hxy.1] at this
          rw [isPyWs_space] at this
          simp at this
      · intro c hc
        rcases List.mem_append.mp hc with hc | hc
        · exact hpbr c hc
        · rcases List.mem_cons.mp hc with rfl | hc
          · exact isLineBreak_space
          · exact hrbr c hc

theorem cleanWs_good (cs : List Char) : cleanWs cs = [] ∨ GoodChunk (cleanWs cs) := by
  apply joinSp_good
  intro p hp
  simp only [cleanWs, List.mem_filter, List.mem_flatMap, List.mem_map] at hp
  obtain ⟨⟨line, ⟨⟨rawline, hraw, rfl⟩, piece, hpiece, rfl⟩⟩, hpnonE⟩ := hp
  refine ⟨by simpa using hpnonE, pyStrip_head _, pyStrip_getLast _, ?_, ?_⟩
  · exact pyStrip_noTwoSp _ (splitTwoSp_noTwoSp _ _ hpiece)
  · intro c hc
    have h1 := pyStrip_mem _ c hc
    have h2 := splitTwoSp_mem _ _ hpiece c h1
    have h3 := pyStrip_mem _ c h2
    exact pySplitlines_no_break cs rawline hraw c h3

theorem cleanWs_nil : cleanWs [] = [] := rfl

theorem cleanWs_idem (cs : List Char) : cleanWs (cleanWs cs) = cleanWs cs := by
  rcases cleanWs_good cs with h0 | hg
  · rw [h0, cleanWs_nil]
  · obtain ⟨hne, hh, hl, hc, hbr⟩ := hg
    have h1 : pySplitlines (cleanWs cs) = [cleanWs cs] :=
      pySplitlines_of_no_break _ hne hbr
    have h2 : pyStrip (cleanWs cs) = cleanWs cs := pyStrip_eq_self _ hh hl
    have h3 : splitTwoSp (cleanWs cs) = [cleanWs cs] := noTwoSp_splitTwoSp_eq _ hc
    conv_lhs => rw [cleanWs]
    rw [h1]
    simp only [List.map_cons, List.map_nil, h2, List.flatMap_cons, List.flatMap_nil, h3,
      List.append_nil]
    simp only [List.filter, List.isEmpty_eq_true]
    rw [show (!(cleanWs cs).isEmpty) = true by simpa using hne]
    rfl

/-- C7 (counterexample): on the three-character whitespace run `" \t "` the
normalizer keeps the tab, so the output `"a \t b"` still contains a run of
whitespace (space, tab, space) longer than a single space, refuting the
claim that every maximal run of spaces, tabs and newlines is collapsed to
one space. -/
theorem extract_text_whitespace_counterexample :
    extract_text_from_html Html.text "a \t b" = "a \t b" ∧
    ¬ (("a \t b").data.Chain' (fun a b => ¬(isPyWs a = true ∧ isPyWs b = true))) := by
  constructor
  · rfl
  · intro h
    rw [show ("a \t b").data = ['a', ' ', '\t', ' ', 'b'] from rfl] at h
    have h2 := (List.chain'_cons.mp h).2
    have h3 := (List.chain'_cons.mp h2).1
    exact h3 ⟨rfl, rfl⟩

/-- C7 (amended): for every parser and HTML input, the output of
`extract_text_from_html` has no two consecutive space characters, no
leading or trailing whitespace, and no line-break characters; whitespace
runs built from tabs are however preserved, not collapsed. -/
theorem extract_text_whitespace_normalized (parse : String → Html) (html : String) :
    NoTwoSp (extract_text_from_html parse html).data ∧
    (∀ c ∈ (extract_text_from_html parse html).data.head?, isPyWs c = false) ∧
    (∀ c ∈ (extract_text_from_html parse html).data.getLast?, isPyWs c = false) ∧
    (∀ c ∈ (extract_text_from_html parse html).data, isLineBreak c = false) := by
  have hdata : (extract_text_from_html parse html).data =
      cleanWs (((parse html).decomposeBlocked.map Html.getText).getD "").data := rfl
  rw [hdata]
  rcases cleanWs_good (((parse html).decomposeBlocked.map Html.getText).getD "").data with
    h0 | hg
  · rw [h0]
    refine ⟨List.chain'_nil, ?_, ?_, ?_⟩ <;> simp
  · exact ⟨hg.2.2.2.1, hg.2.1, hg.2.2.1, hg.2.2.2.2⟩

/-- The external parser's documented behavior on two concrete inputs,
exactly as `BeautifulSoup(·, 'html.parser')` behaves: character
references inside text are decoded (`&lt;` becomes `<`), and markup
parses as a tag tree. Everything else parses as plain text. -/
def entityDemoParse (s : String) : Html :=
  if s = "&lt;b&gt;hi&lt;/b&gt;" then Html.text "<b>hi</b>"
  else if s = "<b>hi</b>" then Html.tag "b" [Html.text "hi"]
  else Html.text s

/-- C9 (counterexample): the normalizer is not idempotent on every input:
because the parser decodes character references, the input
`"&lt;b&gt;hi&lt;/b&gt;"` normalizes to `"<b>hi</b>"`, which on the second
pass re-parses as markup and normalizes to `"hi"` — the second application
changes the output. -/
theorem extract_text_idempotent_counterexample :
    extract_text_from_html entityDemoParse "&lt;b&gt;hi&lt;/b&gt;" = "<b>hi</b>" ∧
    extract_text_from_html entityDemoParse
        (extract_text_from_html entityDemoParse "&lt;b&gt;hi&lt;/b&gt;") = "hi" ∧
    extract_text_from_html entityDemoParse
        (extract_text_from_html entityDemoParse "&lt;b&gt;hi&lt;/b&gt;") ≠
      extract_text_from_html entityDemoParse "&lt;b&gt;hi&lt;/b&gt;" :=
  ⟨rfl, rfl, by decide⟩

/-- C9 (amended): the text normalizer is idempotent on every input whose
first-pass output re-parses as plain text: whenever the parser parses the
normalizer's output back as a bare text node (as it does for already-clean
text free of markup and character references), applying
`extract_text_from_html` to its own output returns the output unchanged. -/
theorem extract_text_idempotent (parse : String → Html) (html : String)
    (hplain : parse (extract_text_from_html parse html) =
      Html.text (extract_text_from_html parse html)) :
    extract_text_from_html parse (extract_text_from_html parse html) =
      extract_text_from_html parse html := by
  have key : ∀ s, extract_text_from_html parse s =
      String.mk (cleanWs (((parse s).decomposeBlocked.map Html.getText).getD "").data) :=
    fun s => rfl
  rw [key (extract_text_from_html parse html), hplain]
  show String.mk
      (cleanWs (cleanWs (((parse html).decomposeBlocked.map Html.getText).getD "").data)) =
    extract_text_from_html parse html
  rw [cleanWs_idem]
  rfl

/-- Witness for C9 at a concrete parser and input. -/
theorem extract_text_idempotent_witness :
    Html.text (extract_text_from_html Html.text "  a   b\nc  ") =
      Html.text (extract_text_from_html Html.text "  a   b\nc  ") ∧
    extract_text_from_html Html.text (extract_text_from_html Html.text "  a   b\nc  ") =
      extract_text_from_html Html.text "  a   b\nc  " :=
  ⟨rfl, extract_text_idempotent Html.text "  a   b\nc  " rfl⟩

/-! ## The Confluence hierarchy walker (`ConfluenceClient.get_page_hierarchy`) -/

/-- The capabilities `get_page_hierarchy` consumes: `fetch` is
`get_page_by_id` (returns `None` on any fetch error), `children` is
`get_page_children` (returns `[]` on any fetch error), `parse` is the
external HTML parser used by `extract_text_from_html`, `baseUrl` is
`self.base_url`. -/
structure ConfEnv where
  baseUrl : String
  fetch : JVal → Option JVal
  children : JVal → JVal
  parse : String → Html

/-- The `page_data` record built at lines 114-124 of
`confluence_client.py`. -/
structure PageData where
  id : JVal
  title : JVal
  url : JVal
  content : JVal
  space : JVal
  created : JVal
  modified : JVal
  depth : Nat
  source : String
deriving Repr

/-- Body extraction (lines 108-112): prefer `body.storage.value`, fall back
to `body.view.value`, else the empty string; `in` tests and indexing follow
Python semantics (so a non-dict `body` value raises on indexing). -/
def bodyContent (page : JVal) : Except Unit JVal := do
  let hasBody ← pyIn "body" page
  if hasBody then
    let bv ← pyIndex page "body"
    let hasStorage ← pyIn "storage" bv
    if hasStorage then
      let st ← pyIndex bv "storage"
      pyGet st "value" (JVal.str "")
    else
      let hasView ← pyIn "view" bv
      if hasView then
        let vw ← pyIndex bv "view"
        pyGet vw "value" (JVal.str "")
      else pure (JVal.str "")
  else pure (JVal.str "")

/-- `self.extract_text_from_html(body_content)`: on a string the text is
extracted; on any non-string the parser raises, the function's own
`except` catches it and the original value is returned unchanged. -/
def contentOf (env : ConfEnv) (body : JVal) : JVal :=
  match body with
  | .str s => .str (extract_text_from_html env.parse s)
  | b => b

/-- Building `page_data` (lines 114-124); any raised `KeyError` /
`TypeError` / `AttributeError` is an `Except.error`, caught by the
`except` of `_fetch_recursive`. -/
def buildPageData (env : ConfEnv) (page : JVal) (depth : Nat) : Except Unit PageData := do
  let body ← bodyContent page
  let pid ← pyIndex page "id"
  let title ← pyGet page "title" (JVal.str "")
  let links ← pyGet page "_links" (JVal.obj [])
  let pidD ← pyGet page "id" (JVal.str "")
  let url ← pyGet links "webui"
    (JVal.str (env.baseUrl ++ "/wiki/spaces/*/pages/" ++ pyStr pidD))
  let space ← pyGet page "spaceId" (JVal.str "UNKNOWN")
  let created ← pyGet page "createdAt" (JVal.str "")
  let modified ← pyGet page "updatedAt" (JVal.str "")
  pure { id := pid, title := title, url := url, content := contentOf env body,
         space := space, created := created, modified := modified,
         depth := depth, source := "confluence" }

/-- `page = self.get_page_by_id(page_id)` followed by `if not page: return`
(truthiness, so an empty dict also skips) and `page_data` building; `none`
stands for "this node is skipped". -/
def fetchPage (env : ConfEnv) (pageId : JVal) (depth : Nat) : Option PageData :=
  match env.fetch pageId with
  | none => none
  | some page => if truthy page then (buildPageData env page depth).toOption else none

/-- The `for child in children: _fetch_recursive(child['id'], depth + 1)`
loop, abstracted over the recursive call `f`: a child record without an
`'id'` key raises inside the parent's frame, so the remaining siblings are
dropped (the parent's `except` catches the error). -/
def childLoopF (f : JVal → List PageData) : List JVal → List PageData
  | [] => []
  | ch :: rest =>
    match pyIndex ch "id" with
    | .error _ => []
    | .ok cid => f cid ++ childLoopF f rest

/-- Iterating `children` (the value of `data.get('results', [])` from
`get_page_children`, which need not be a list): a `TypeError` while setting
up the loop is caught by the node's `except`, skipping all children. -/
def childrenLoop (f : JVal → List PageData) (childrenVal : JVal) : List PageData :=
  match pyIter childrenVal with
  | .error _ => []
  | .ok cs => childLoopF f cs

/-- `_fetch_recursive(page_id, depth)`: stop when `depth > max_depth`, fetch
the page, build and append `page_data`, then recurse into the children at
`depth + 1`. Total for every capability — the `depth > max_depth` guard
alone bounds the recursion. -/
def fetchRec (env : ConfEnv) (maxDepth : Int) (pageId : JVal) (depth : Nat) : List PageData :=
  if (depth : Int) > maxDepth then []
  else
    match fetchPage env pageId depth with
    | none => []
    | some p =>
      p :: childrenLoop (fun cid => fetchRec env maxDepth cid (depth + 1))
        (env.children pageId)
termination_by (maxDepth + 1 - depth).toNat
decreasing_by
  simp_wf
  omega

/-- `get_page_hierarchy(root_page_id, max_depth=5)`. -/
def get_page_hierarchy (env : ConfEnv) (root_page_id : JVal) (max_depth : Int := 5) :
    List PageData :=
  fetchRec env max_depth root_page_id 0

/-- Fuel-indexed version of `_fetch_recursive`: the recursion is cut off
after `fuel` nesting levels regardless of the depth guard. -/
def fetchRecFuel (env : ConfEnv) (maxDepth : Int) :
    Nat → JVal → Nat → List PageData
  | 0, _, _ => []
  | fuel + 1, pageId, depth =>
    if (depth : Int) > maxDepth then []
    else
      match fetchPage env pageId depth with
      | none => []
      | some p =>
        p :: childrenLoop (fun cid => fetchRecFuel env maxDepth fuel cid (depth + 1))
          (env.children pageId)

/-- With enough fuel for the remaining depth budget, the fuel-indexed
traversal agrees with the (total) well-founded one — for every capability,
cyclic child graphs included. -/
theorem fetchRecFuel_eq (env : ConfEnv) (maxDepth : Int) (fuel : Nat) (pageId : JVal)
    (depth : Nat) (h : (maxDepth + 1 - depth).toNat ≤ fuel) :
    fetchRecFuel env maxDepth fuel pageId depth = fetchRec env maxDepth pageId depth := by
  induction fuel generalizing pageId depth with
  | zero =>
    rw [fetchRecFuel, fetchRec]
    have hgt : (depth : Int) > maxDepth := by omega
    rw [if_pos hgt]
  | succ fuel ih =>
    have hrec : (fun cid => fetchRecFuel env maxDepth fuel cid (depth + 1)) =
        (fun cid => fetchRec env maxDepth cid (depth + 1)) :=
      funext fun cid => ih cid (depth + 1) (by omega)
    rw [fetchRecFuel, fetchRec]
    simp only [hrec]

end Scraper

namespace Scraper

theorem except_bind_ok {α β : Type} (e : Except Unit α) (f : α → Except Unit β) (b : β)
    (h : (e >>= f) = .ok b) : ∃ a, e = .ok a ∧ f a = .ok b := by
  cases e with
  | error err => exact absurd h (by simp [Bind.bind, Except.bind])
  | ok a => exact ⟨a, rfl, by simpa [Bind.bind, Except.bind] using h⟩

theorem buildPageData_depth (env : ConfEnv) (page : JVal) (depth : Nat) (p : PageData)
    (h : buildPageData env page depth = .ok p) : p.depth = depth := by
  rw [buildPageData] at h
  obtain ⟨body, hb, h⟩ := except_bind_ok _ _ _ h
  obtain ⟨v1, h1, h⟩ := except_bind_ok _ _ _ h
  obtain ⟨v2, h2, h⟩ := except_bind_ok _ _ _ h
  obtain ⟨v3, h3, h⟩ := except_bind_ok _ _ _ h
  obtain ⟨v4, h4, h⟩ := except_bind_ok _ _ _ h
  obtain ⟨v5, h5, h⟩ := except_bind_ok _ _ _ h
  obtain ⟨v6, h6, h⟩ := except_bind_ok _ _ _ h
  obtain ⟨v7, h7, h⟩ := except_bind_ok _ _ _ h
  obtain ⟨v8, h8, h⟩ := except_bind_ok _ _ _ h
  simp only [pure, Except.pure, Except.ok.injEq] at h
  rw [← h]

theorem fetchPage_depth (env : ConfEnv) (pid : JVal) (depth : Nat) (p : PageData)
    (h : fetchPage env pid depth = some p) : p.depth = depth := by
  rw [fetchPage] at h
  split at h
  · exact absurd h (by simp)
  · split at h
    · rw [Except.toOption.eq_def] at h
      split at h
      · rename_i p0 heq
        injection h with h
        subst h
        exact buildPageData_depth env _ depth p0 heq
      · exact absurd h (by simp)
    · exact absurd h (by simp)

theorem childLoopF_mem (f : JVal → List PageData) (cs : List JVal) (p : PageData)
    (hp : p ∈ childLoopF f cs) : ∃ cid, p ∈ f cid := by
  induction cs with
  | nil => rw [childLoopF] at hp; simp at hp
  | cons ch rest ih =>
    rw [childLoopF] at hp
    split at hp
    · simp at hp
    · rename_i cid heq
      rcases List.mem_append.mp hp with h0 | h0
      · exact ⟨cid, h0⟩
      · exact ih h0

theorem childrenLoop_mem (f : JVal → List PageData) (cv : JVal) (p : PageData)
    (hp : p ∈ childrenLoop f cv) : ∃ cid, p ∈ f cid := by
  rw [childrenLoop] at hp
  split at hp
  · simp at hp
  · exact childLoopF_mem f _ p hp

theorem fetchRecFuel_depth_le (env : ConfEnv) (md : Int) (fuel : Nat) :
    ∀ pid depth p, p ∈ fetchRecFuel env md fuel pid depth → (p.depth : Int) ≤ md := by
  induction fuel with
  | zero => intro pid depth p hp; rw [fetchRecFuel] at hp; simp at hp
  | succ fuel ih =>
    intro pid depth p hp
    rw [fetchRecFuel] at hp
    split at hp
    · simp at hp
    · rename_i hgt
      split at hp
      · simp at hp
      · rename_i p0 hfp
        rcases List.mem_cons.mp hp with rfl | hp
        · rw [fetchPage_depth env pid depth p hfp]
          omega
        · obtain ⟨cid, hcid⟩ := childrenLoop_mem _ _ p hp
          exact ih cid (depth + 1) p hcid

theorem fetchRec_gt (env : ConfEnv) (md : Int) (pid : JVal) (depth : Nat)
    (h : (depth : Int) > md) : fetchRec env md pid depth = [] := by
  rw [fetchRec, if_pos h]

theorem childLoopF_nilF (f : JVal → List PageData) (hf : ∀ cid, f cid = [])
    (cs : List JVal) : childLoopF f cs = [] := by
  induction cs with
  | nil => rfl
  | cons ch rest ih =>
    rw [childLoopF]
    split
    · rfl
    · rw [hf, ih]
      rfl

theorem childrenLoop_nilF (f : JVal → List PageData) (hf : ∀ cid, f cid = [])
    (cv : JVal) : childrenLoop f cv = [] := by
  rw [childrenLoop]
  split
  · rfl
  · exact childLoopF_nilF f hf _

theorem fetchRec_at_max (env : ConfEnv) (md : Int) (pid : JVal) (depth : Nat) (p : PageData)
    (hd : (depth : Int) = md) (hp : fetchPage env pid depth = some p) :
    fetchRec env md pid depth = [p] := by
  rw [fetchRec, if_neg (by omega)]
  rw [hp]
  rw [childrenLoop_nilF _ (fun cid => fetchRec_gt env md cid (depth + 1) (by omega)) _]

/-- C3: no emitted node's depth exceeds `max_depth`; a node whose fetch
succeeds at exactly `max_depth` is still emitted, alone, with no children
emitted below it. -/
theorem hierarchy_depth_bound (env : ConfEnv) (root : JVal) (md : Int) :
    (∀ p ∈ get_page_hierarchy env root md, (p.depth : Int) ≤ md) ∧
    (∀ pid (depth : Nat) p, (depth : Int) = md → fetchPage env pid depth = some p →
      fetchRec env md pid depth = [p]) := by
  constructor
  · intro p hp
    rw [get_page_hierarchy, ← fetchRecFuel_eq env md ((md + 1 - (0 : Nat)).toNat) root 0
      (Nat.le_refl _)] at hp
    exact fetchRecFuel_depth_le env md _ root 0 p hp
  · intro pid depth p hd hp
    exact fetchRec_at_max env md pid depth p hd hp

/-- C4: for every capability — including one describing a cyclic graph —
the bounded-fuel traversal stabilizes as soon as the fuel covers the depth
budget and agrees with the total walker: the per-entry depth bound alone
guarantees termination. -/
theorem walker_terminates_via_depth_bound (env : ConfEnv) (md : Int) (fuel : Nat) (pid : JVal)
    (h : (md + 1).toNat ≤ fuel) :
    fetchRecFuel env md fuel pid 0 = get_page_hierarchy env pid md := by
  rw [get_page_hierarchy]
  exact fetchRecFuel_eq env md fuel pid 0 (by omega)

/-- ids of the children records up to the first one without an `'id'` key
(the raise aborts the remaining siblings). -/
def validIds : List JVal → List JVal
  | [] => []
  | ch :: rest =>
    match pyIndex ch "id" with
    | .error _ => []
    | .ok cid => cid :: validIds rest

/-- The hierarchy as a tree, one node per successfully fetched page — the
spec-side description of the traversal for the pre-order claim. Children
appear in the order the children capability returns them. -/
inductive PTree where
  | node (page : PageData) (children : List PTree)

mutual

/-- Pre-order flattening, following the spec: a node appears before all of
its descendants, sibling subtrees in order. -/
def PTree.flattenPre : PTree → List PageData
  | .node p cs => p :: PTree.flattenForest cs

def PTree.flattenForest : List PTree → List PageData
  | [] => []
  | t :: ts => PTree.flattenPre t ++ PTree.flattenForest ts

end

/-- iteration of the children value, keeping ids up to the first bad
record. -/
def specChildIds (cv : JVal) : List JVal :=
  match pyIter cv with
  | .error _ => []
  | .ok cs => validIds cs

/-- The depth-truncated fetch tree (spec side of the C8 refinement). -/
def specTree (env : ConfEnv) (md : Int) (pid : JVal) (depth : Nat) : Option PTree :=
  if (depth : Int) > md then none
  else
    match fetchPage env pid depth with
    | none => none
    | some p =>
      some (.node p ((specChildIds (env.children pid)).filterMap
        (fun cid => specTree env md cid (depth + 1))))
termination_by (md + 1 - depth).toNat
decreasing_by
  simp_wf
  omega

theorem childLoopF_flatten (f : JVal → List PageData) (g : JVal → Option PTree)
    (hfg : ∀ cid, f cid = (g cid).elim [] PTree.flattenPre) (cs : List JVal) :
    childLoopF f cs = PTree.flattenForest ((validIds cs).filterMap g) := by
  induction cs with
  | nil => rfl
  | cons ch rest ih =>
    rcases hidx : pyIndex ch "id" with e | cid
    · simp only [childLoopF, validIds, hidx]
      rfl
    · simp only [childLoopF, validIds, hidx, List.filterMap_cons]
      cases hg : g cid with
      | none =>
        simp only [hg, hfg cid, Option.elim]
        rw [ih, List.nil_append]
      | some t =>
        simp only [hg, hfg cid, Option.elim, PTree.flattenForest]
        rw [ih]

theorem childrenLoop_flatten (f : JVal → List PageData) (g : JVal → Option PTree)
    (hfg : ∀ cid, f cid = (g cid).elim [] PTree.flattenPre) (cv : JVal) :
    childrenLoop f cv = PTree.flattenForest ((specChildIds cv).filterMap g) := by
  rw [childrenLoop, specChildIds]
  cases pyIter cv with
  | error e => rfl
  | ok cs => exact childLoopF_flatten f g hfg cs

theorem fetchRec_flatten (env : ConfEnv) (md : Int) :
    ∀ n pid (depth : Nat), (md + 1 - depth).toNat = n →
      fetchRec env md pid depth = (specTree env md pid depth).elim [] PTree.flattenPre := by
  intro n
  induction n using Nat.strong_induction_on with
  | _ n ih =>
    intro pid depth hn
    rw [fetchRec, specTree]
    by_cases hgt : (depth : Int) > md
    · rw [if_pos hgt, if_pos hgt]
      rfl
    · rw [if_neg hgt, if_neg hgt]
      cases hp : fetchPage env pid depth with
      | none => rfl
      | some p =>
        show p :: childrenLoop (fun cid => fetchRec env md cid (depth + 1))
            (env.children pid) =
          PTree.flattenPre (.node p ((specChildIds (env.children pid)).filterMap
            (fun cid => specTree env md cid (depth + 1))))
        rw [PTree.flattenPre]
        rw [childrenLoop_flatten _ (fun cid => specTree env md cid (depth + 1))
          (fun cid => ih ((md + 1 - (depth + 1 : Nat)).toNat) (by omega) cid (depth + 1) rfl) _]

/-- C8: the emitted list is exactly the pre-order flattening of the
depth-truncated fetch tree: every node precedes its descendants and
sibling subtrees appear in the order of the children capability. -/
theorem hierarchy_preorder (env : ConfEnv) (root : JVal) (md : Int) :
    get_page_hierarchy env root md = (specTree env md root 0).elim [] PTree.flattenPre := by
  rw [get_page_hierarchy]
  exact fetchRec_flatten env md ((md + 1 - (0 : Nat)).toNat) root 0 rfl

/-- A small concrete hierarchy for witnesses: page "100" has children
"101" and "102", page "102" has child "103". -/
def demoPage (pid : String) : JVal :=
  .obj [("id", .str pid), ("title", .str ("Page " ++ pid)),
        ("body", .obj [("storage", .obj [("value", .str ("body  of " ++ pid))])]),
        ("_links", .obj [("webui", .str ("/wiki/x/" ++ pid))]),
        ("spaceId", .str "SP"), ("createdAt", .str "2024-01-01"),
        ("updatedAt", .str "2024-01-02")]

def confDemoEnv : ConfEnv where
  baseUrl := "https://example.net"
  fetch := fun pid =>
    match pid with
    | .str s => some (demoPage s)
    | _ => none
  children := fun pid =>
    match pid with
    | .str "100" => .arr [.obj [("id", .str "101")], .obj [("id", .str "102")]]
    | .str "102" => .arr [.obj [("id", .str "103")]]
    | _ => .arr []
  parse := Html.text

/-- The `page_data` record the demo environment produces for page `pid` at
a given depth. -/
def demoData (pid : String) (depth : Nat) : PageData :=
  { id := .str pid, title := .str ("Page " ++ pid), url := .str ("/wiki/x/" ++ pid),
    content := .str ("body of " ++ pid), space := .str "SP",
    created := .str "2024-01-01", modified := .str "2024-01-02",
    depth := depth, source := "confluence" }

theorem demo_hierarchy_eval : fetchRecFuel confDemoEnv 1 2 (JVal.str "100") 0 =
    [demoData "100" 0, demoData "101" 1, demoData "102" 1] := rfl

/-- Witness for C3 on the demo hierarchy with `max_depth = 1`: node "101"
is emitted within the bound, and node "103" fetched at exactly depth 1 is
emitted alone. -/
theorem hierarchy_depth_bound_witness :
    demoData "101" 1 ∈ get_page_hierarchy confDemoEnv (JVal.str "100") 1 ∧
    ((demoData "101" 1).depth : Int) ≤ 1 ∧
    ((1 : Nat) : Int) = (1 : Int) ∧
    fetchPage confDemoEnv (JVal.str "103") 1 = some (demoData "103" 1) ∧
    fetchRec confDemoEnv 1 (JVal.str "103") 1 = [demoData "103" 1] := by
  have hmem : demoData "101" 1 ∈ get_page_hierarchy confDemoEnv (JVal.str "100") 1 := by
    rw [get_page_hierarchy,
      ← fetchRecFuel_eq confDemoEnv 1 2 (JVal.str "100") 0 (by decide), demo_hierarchy_eval]
    exact List.mem_cons_of_mem _ (List.mem_cons_self _ _)
  refine ⟨hmem, (hierarchy_depth_bound confDemoEnv (JVal.str "100") 1).1 _ hmem, rfl, rfl,
    (hierarchy_depth_bound confDemoEnv (JVal.str "100") 1).2 (JVal.str "103") 1
      (demoData "103" 1) rfl rfl⟩

/-- A child-fetch capability describing a cyclic graph: every page lists
itself as its own child. -/
def confCyclicEnv : ConfEnv where
  baseUrl := ""
  fetch := fun _ => some (demoPage "A")
  children := fun _ => .arr [.obj [("id", .str "A")]]
  parse := Html.text

/-- Witness for C4 on the cyclic capability: with depth bound 2 the
traversal stabilizes — fuel 50 gives the same (finite) result as the total
walker. -/
theorem walker_terminates_witness :
    ((2 : Int) + 1).toNat ≤ 50 ∧
    fetchRecFuel confCyclicEnv 2 50 (JVal.str "A") 0 =
      get_page_hierarchy confCyclicEnv (JVal.str "A") 2 :=
  ⟨by decide, walker_terminates_via_depth_bound confCyclicEnv 2 50 (JVal.str "A") (by decide)⟩

end Scraper

namespace Scraper

/-! ## The Jira issue collector (`JiraClient.search_issues` and friends) -/

/-- Python list/string slicing `v[:n]`; slicing anything else raises
`TypeError`. -/
def pySliceN (n : Nat) : JVal → Except Unit (List JVal)
  | .arr xs => .ok (xs.take n)
  | .str s => .ok ((s.data.take n).map (fun c => JVal.str (String.mk [c])))
  | _ => .error ()

/-- `' '.join`-style joining: every part must be a string, otherwise
`TypeError`. -/
def pyJoinStrs (sep : String) (parts : List JVal) : Except Unit String := do
  let strs ← parts.mapM (fun p =>
    match p with
    | JVal.str s => Except.ok s
    | _ => Except.error ())
  pure (String.intercalate sep strs)

theorem lookup_sizeOf_lt {kvs : List (String × JVal)} {k : String} {v : JVal}
    (h : kvs.lookup k = some v) : sizeOf v < sizeOf kvs := by
  induction kvs with
  | nil => simp [List.lookup] at h
  | cons kv rest ih =>
    rw [List.lookup] at h
    split at h
    · injection h with h
      subst h
      obtain ⟨k1, v1⟩ := kv
      simp
      omega
    · have := ih h
      simp
      omega

mutual

/-- `extract_from_block` of `_extract_adf_text`: a dict block contributes
its `text` value when its `type` is `"text"`, then recurses into a
`content` list; a present non-iterable `content` raises. -/
def extractFromBlock : JVal → Except Unit (List JVal)
  | .obj kvs =>
    (let parts := if ((kvs.lookup "type").getD .null == JVal.str "text")
                  then [(kvs.lookup "text").getD (.str "")] else []
     match h : kvs.lookup "content" with
     | none => .ok parts
     | some (.arr items) => (extractFromBlockList items).map (fun rest => parts ++ rest)
     | some (.str _) => .ok parts
     | some (.obj _) => .ok parts
     | some _ => .error ())
  | _ => .ok []
termination_by j => sizeOf j
decreasing_by
  have := lookup_sizeOf_lt h
  simp at this ⊢
  omega

def extractFromBlockList : List JVal → Except Unit (List JVal)
  | [] => .ok []
  | x :: xs => do
    let a ← extractFromBlock x
    let b ← extractFromBlockList xs
    pure (a ++ b)
termination_by l => sizeOf l
decreasing_by
  all_goals simp
  all_goals omega

end

/-- `_extract_adf_text(adf_doc)`: walk the `content` tree collecting text
parts, join with single spaces; a non-string collected part makes the
`join` raise. -/
def extract_adf_text (adf : JVal) : Except Unit String := do
  let content ← pyGet adf "content" (JVal.arr [])
  if truthy content then
    match content with
    | .arr items => do
      let parts ← extractFromBlockList items
      pyJoinStrs " " parts
    | .str _ => pyJoinStrs " " []
    | .obj _ => pyJoinStrs " " []
    | _ => .error ()
  else pure ""

/-- One changelog entry inside `_extract_issue_content`: an entry with a
truthy `items` list contributes the line `Update: {created}` — and nothing
else; entries without items contribute nothing. -/
def historyLine (h : JVal) : Except Unit (Option String) := do
  let items ← pyGet h "items" JVal.null
  if truthy items then do
    let created ← pyGet h "created" (JVal.str "")
    pure (some ("Update: " ++ pyStr created))
  else pure none

/-- The `for history in changelog[:5]` loop: collect the `Update:` lines in
order. -/
def historyLoop : List JVal → Except Unit (List String)
  | [] => .ok []
  | h :: rest => do
    let line ← historyLine h
    let more ← historyLoop rest
    pure (line.toList ++ more)

/-- `_extract_issue_content(issue)` (lines 123-147 of `jira_client.py`):
space-join of `Summary: {summary}` (when truthy), the description part
(ADF text for a dict, `Description: {description}` otherwise), and one
`historyLine` per entry of `changelog.histories[:5]`. -/
def extract_issue_content (issue : JVal) : Except Unit String := do
  let fields ← pyGet issue "fields" (JVal.obj [])
  let summary ← pyGet fields "summary" JVal.null
  let description ← pyGet fields "description" JVal.null
  let parts2 ← (
    if truthy description then
      match description with
      | .obj kvs => (extract_adf_text (.obj kvs)).map (fun t => [t])
      | d => Except.ok ["Description: " ++ pyStr d]
    else Except.ok [])
  let cl ← pyGet issue "changelog" (JVal.obj [])
  let histories ← pyGet cl "histories" (JVal.arr [])
  let parts3 ← (
    if truthy histories then do
      let hs ← pySliceN 5 histories
      historyLoop hs
    else Except.ok [])
  let parts1 : List String := if truthy summary then ["Summary: " ++ pyStr summary] else []
  pure (String.intercalate " " (parts1 ++ parts2 ++ parts3))

/-- The `issue_data` record built at lines 80-94 of `jira_client.py`. -/
structure IssueData where
  key : JVal
  id : JVal
  title : JVal
  description : JVal
  status : JVal
  project : JVal
  issue_type : JVal
  created : JVal
  updated : JVal
  assignee : JVal
  url : String
  content : String
  source : String
deriving Repr

/-- Building `issue_data`; a raised `KeyError`/`AttributeError` (e.g. a
JSON-null `assignee`, on which `.get('displayName', ...)` is attempted) is
an `Except.error`, caught by the per-project `except` which then skips the
rest of that project's issues. -/
def buildIssueData (baseUrl : String) (issue : JVal) : Except Unit IssueData := do
  let key ← pyIndex issue "key"
  let iid ← pyIndex issue "id"
  let fields ← pyGet issue "fields" (JVal.obj [])
  let title ← pyGet fields "summary" (JVal.str "")
  let description ← pyGet fields "description" (JVal.str "")
  let st ← pyGet fields "status" (JVal.obj [])
  let status ← pyGet st "name" (JVal.str "")
  let pr ← pyGet fields "project" (JVal.obj [])
  let project ← pyGet pr "key" (JVal.str "")
  let it ← pyGet fields "issuetype" (JVal.obj [])
  let issue_type ← pyGet it "name" (JVal.str "")
  let created ← pyGet fields "created" (JVal.str "")
  let updated ← pyGet fields "updated" (JVal.str "")
  let asg ← pyGet fields "assignee" (JVal.obj [])
  let assignee ← pyGet asg "displayName" (JVal.str "Unassigned")
  let content ← extract_issue_content issue
  pure { key := key, id := iid, title := title, description := description,
         status := status, project := project, issue_type := issue_type,
         created := created, updated := updated, assignee := assignee,
         url := baseUrl ++ "/browse/" ++ pyStr key, content := content,
         source := "jira" }

/-- The keyword filter of `search_issues` (lines 69-78): keep the issue iff
the lowercased query occurs in the lowercased summary or in the lowercased
description text (`str(...)` of a non-dict description, ADF text of a
dict). -/
def filterCheck (query : String) (issue : JVal) : Except Unit Bool := do
  let fields ← pyGet issue "fields" (JVal.obj [])
  let titleJ ← pyGet fields "summary" (JVal.str "")
  let title ← pyLower titleJ
  let descJ ← pyGet fields "description" (JVal.str "")
  let desc ← (
    match descJ with
    | .obj kvs => (extract_adf_text (.obj kvs)).map pyLowerString
    | d => Except.ok (pyLowerString (pyStr d)))
  pure (containsSeq (pyLowerString query).data title.data ||
    containsSeq (pyLowerString query).data desc.data)

/-- The capabilities `search_issues` consumes: the decoded `/project`
response (`none` models a raised transport/status error) and, per project
key, the decoded issues response (`none` models a non-200 status or a
raised transport error, both of which skip the project). -/
structure JiraEnv where
  baseUrl : String
  projectsResp : Option JVal
  projIssuesResp : JVal → Option JVal

/-- The inner `for issue in project_issues` loop (lines 64-96): stop at the
global `limit`, filter (only under `if search_query:`, i.e. a truthy,
non-empty query), build, append; a raised error while filtering or
building aborts the remaining issues of this project (per-project
`except`), keeping what was already appended. -/
def issueLoop (baseUrl : String) (query : Option String) (limit : Nat)
    (acc : List IssueData) : List JVal → List IssueData
  | [] => acc
  | issue :: rest =>
    if acc.length ≥ limit then acc
    else
      match (match query with
             | none => Except.ok true
             | some q => if q.isEmpty then Except.ok true else filterCheck q issue) with
      | .error _ => acc
      | .ok false => issueLoop baseUrl query limit acc rest
      | .ok true =>
        match buildIssueData baseUrl issue with
        | .error _ => acc
        | .ok d => issueLoop baseUrl query limit (acc ++ [d]) rest

/-- The body of one project iteration, after `proj_key = project['key']`
succeeded (lines 51-96): a non-200 response, non-dict response body or
non-iterable issues value skips the project. -/
def projectBody (env : JiraEnv) (query : Option String) (limit : Nat)
    (acc : List IssueData) (pkey : JVal) : List IssueData :=
  match env.projIssuesResp pkey with
  | none => acc
  | some resp =>
    match pyGet resp "issues" (JVal.arr []) with
    | .error _ => acc
    | .ok issuesJ =>
      match pyIter issuesJ with
      | .error _ => acc
      | .ok issues => issueLoop env.baseUrl query limit acc issues

/-- The outer `for project in projects[:max_projects]` loop (lines 47-100).
A failing `project['key']` lookup reaches the per-project `except`, whose
log f-string reads `proj_key`: when no earlier iteration has bound
`proj_key` that read raises `UnboundLocalError`, escaping to the outer
`except`, and the whole search returns `[]`; when a previous project did
bind it, the handler logs the stale key and the loop continues. -/
def projectLoop (env : JiraEnv) (query : Option String) (limit : Nat)
    (acc : List IssueData) (keyBound : Bool) : List JVal → List IssueData
  | [] => acc
  | project :: rest =>
    match pyIndex project "key" with
    | .error _ =>
      if keyBound then projectLoop env query limit acc keyBound rest
      else []
    | .ok pkey =>
      projectLoop env query limit (projectBody env query limit acc pkey) true rest

/-- Python truthiness of the optional query string: `None` and the empty
string are both falsy. -/
def queryTruthy : Option String → Bool
  | none => false
  | some s => !s.isEmpty

/-- `search_issues(search_query=None, limit=100)`: enumerate the first
`20` (with a truthy query) or `10` (without) projects and collect matching
issues; a failure before the project loop yields `[]`. -/
def search_issues (env : JiraEnv) (search_query : Option String) (limit : Nat := 100) :
    List IssueData :=
  match env.projectsResp with
  | none => []
  | some pj =>
    match pyLen pj with
    | .error _ => []
    | .ok _ =>
      let maxProjects := if queryTruthy search_query then 20 else 10
      match pySliceN maxProjects pj with
      | .error _ => []
      | .ok projects => projectLoop env search_query limit [] false projects

/-- `get_lit_issues()`: search for "lit", falling back to a small
unfiltered fetch when empty. -/
def get_lit_issues (env : JiraEnv) : List IssueData :=
  let lit_issues := search_issues env (some "lit") 30
  if lit_issues.isEmpty then search_issues env none 10 else lit_issues

/-- `get_connexin_issues()`: search for "connexin", falling back to a
small unfiltered fetch when empty. -/
def get_connexin_issues (env : JiraEnv) : List IssueData :=
  let connexin_issues := search_issues env (some "connexin") 30
  if connexin_issues.isEmpty then search_issues env none 10 else connexin_issues

/-- Lines 68-71 of `cli.py`: the two selector passes are combined by plain
list concatenation, `lit_issues + connexin_issues`. -/
def cliJiraIssues (env : JiraEnv) : List IssueData :=
  get_lit_issues env ++ get_connexin_issues env

end Scraper

namespace Scraper

def demoIssue : JVal :=
  .obj [("key", .str "C-1"), ("id", .str "9001"),
        ("fields", .obj [("summary", .str "Connexin lit demo"),
                         ("status", .obj [("name", .str "Open")]),
                         ("project", .obj [("key", .str "P")]),
                         ("issuetype", .obj [("name", .str "Task")]),
                         ("created", .str "2024-01-01"),
                         ("updated", .str "2024-01-02")])]

def jiraDemoEnv : JiraEnv where
  baseUrl := "https://example.net"
  projectsResp := some (.arr [.obj [("key", .str "P")]])
  projIssuesResp := fun _ => some (.obj [("issues", .arr [demoIssue])])


def c6Issue : JVal :=
  .obj [("key", .str "T-1"), ("id", .str "7"),
        ("fields", .obj [("summary", .str "Fix pump"),
                         ("description", .str "Broken valve")]),
        ("changelog", .obj [("histories", .arr [
          .obj [("created", .str "2024-03-01"),
                ("author", .obj [("displayName", .str "Alice")]),
                ("items", .arr [.obj [("field", .str "status"),
                                      ("fromString", .str "Open"),
                                      ("toString", .str "Done")]])]])])]


def issueNullAssignee : JVal :=
  .obj [("key", .str "N-1"), ("id", .str "1"),
        ("fields", .obj [("summary", .str "Null assignee case"),
                         ("assignee", JVal.null)])]

def jiraNullEnv : JiraEnv where
  baseUrl := ""
  projectsResp := some (.arr [.obj [("key", .str "P")]])
  projIssuesResp := fun _ => some (.obj [("issues", .arr [issueNullAssignee])])


def issueNullDesc : JVal :=
  .obj [("key", .str "N-2"), ("id", .str "2"),
        ("fields", .obj [("summary", .str "Null description case"),
                         ("description", JVal.null)])]


/-- C1 (counterexample): one project whose single issue "C-1" matches both
the "lit" pass and the "connexin" pass; the combined scrape result contains
the key "C-1" twice — no de-duplication happens. -/
theorem issue_dedup_counterexample :
    ((cliJiraIssues jiraDemoEnv).map (fun d => d.key)) =
      [JVal.str "C-1", JVal.str "C-1"] ∧
    ((cliJiraIssues jiraDemoEnv).map (fun d => d.key)).count (JVal.str "C-1") = 2 :=
  ⟨rfl, rfl⟩

/-- C1 (amended): the scrape operation combines the two selector passes by
plain concatenation: every issue key occurs in the combined result exactly
as many times as in the two passes together — duplicates are kept, not
discarded. -/
theorem issue_keys_concat_counts (env : JiraEnv) (k : JVal) :
    ((cliJiraIssues env).map (fun d => d.key)).count k =
      ((get_lit_issues env).map (fun d => d.key)).count k +
      ((get_connexin_issues env).map (fun d => d.key)).count k := by
  rw [cliJiraIssues, List.map_append, List.count_append]

/-- C5 (counterexample): a JSON-null `assignee` makes the record building
raise (`None.get(...)`), and the issue is dropped from the search result
instead of being emitted; a JSON-null `description` is stored as null in
the record, not as the empty string. -/
theorem issue_null_optional_counterexample :
    buildIssueData "" issueNullAssignee = .error () ∧
    search_issues jiraNullEnv none 100 = [] ∧
    (buildIssueData "" issueNullDesc).map (fun d => d.description) = .ok JVal.null :=
  ⟨rfl, rfl, rfl⟩

/-- An issue whose optional `description` and `assignee` keys are absent
(not null). -/
def mkPlainIssue (k i su st pk it cr up : String) : JVal :=
  .obj [("key", .str k), ("id", .str i),
        ("fields", .obj [("summary", .str su),
                         ("status", .obj [("name", .str st)]),
                         ("project", .obj [("key", .str pk)]),
                         ("issuetype", .obj [("name", .str it)]),
                         ("created", .str cr), ("updated", .str up)])]

def mkSingleIssueEnv (base : String) (issue : JVal) : JiraEnv where
  baseUrl := base
  projectsResp := some (.arr [.obj [("key", .str "P")]])
  projIssuesResp := fun _ => some (.obj [("issues", .arr [issue])])

/-- C5 (amended): for every issue whose optional fields are absent, record
building never raises — description degrades to the empty string, assignee
to the sentinel "Unassigned" — and the issue is emitted by the search. -/
theorem issue_absent_optional_defaults (base k i su st pk it cr up : String) :
    (buildIssueData base (mkPlainIssue k i su st pk it cr up)).map
        (fun d => (d.description, d.assignee)) =
      .ok (JVal.str "", JVal.str "Unassigned") ∧
    (search_issues (mkSingleIssueEnv base (mkPlainIssue k i su st pk it cr up)) none 100).map
        (fun d => d.assignee) = [JVal.str "Unassigned"] :=
  ⟨rfl, rfl⟩

/-- C6 (counterexample): an issue with one changelog entry authored by
"Alice": the built content carries the line `Update: 2024-03-01` — no
author, no description-of-change, no `[timestamp] author: ...` format; the
author's name does not occur in the content at all. -/
theorem issue_activity_format_counterexample :
    extract_issue_content c6Issue =
      .ok "Summary: Fix pump Description: Broken valve Update: 2024-03-01" ∧
    containsSeq "Alice".data
      "Summary: Fix pump Description: Broken valve Update: 2024-03-01".data = false :=
  ⟨rfl, rfl⟩

/-- A changelog entry with a non-empty `items` list, authored timestamp
`t`. -/
def mkHist (t : String) : JVal :=
  .obj [("created", .str t), ("author", .obj [("displayName", .str "someone")]),
        ("items", .arr [.obj [("field", .str "status")]])]

/-- An issue with string summary and description and a given histories
list. -/
def mkFullIssue (su d : String) (hs : List JVal) : JVal :=
  .obj [("key", .str "K-1"), ("id", .str "1"),
        ("fields", .obj [("summary", .str su), ("description", .str d)]),
        ("changelog", .obj [("histories", .arr hs)])]

theorem historyLine_mkHist (t : String) :
    historyLine (mkHist t) = .ok (some ("Update: " ++ t)) := rfl

theorem historyLoop_mkHist (l : List String) :
    historyLoop (l.map mkHist) = .ok (l.map (fun t => "Update: " ++ t)) := by
  induction l with
  | nil => rfl
  | cons t rest ih =>
    rw [List.map_cons, historyLoop, historyLine_mkHist, ih]
    rfl

/-- C6 (amended): the built content is the single-space join of
`Summary: {summary}`, `Description: {description}` and one line
`Update: {timestamp}` per entry among the FIRST five changelog entries —
the author and the description of the change do not appear in the line. -/
theorem issue_content_structure (su d : String) (ts : List String)
    (hsu : su ≠ "") (hd : d ≠ "") :
    extract_issue_content (mkFullIssue su d (ts.map mkHist)) =
      .ok (String.intercalate " "
        (["Summary: " ++ su, "Description: " ++ d] ++
          (ts.take 5).map (fun t => "Update: " ++ t))) := by
  have h1 : su.isEmpty = false := by
    rw [Bool.eq_false_iff]
    intro hh
    exact hsu ((String.isEmpty_iff su).mp hh)
  have h2 : d.isEmpty = false := by
    rw [Bool.eq_false_iff]
    intro hh
    exact hd ((String.isEmpty_iff d).mp hh)
  have htr : ∀ l : List JVal, truthy (JVal.arr l) = !l.isEmpty := fun _ => rfl
  simp [extract_issue_content, mkFullIssue, pyGet, List.lookup, Option.getD,
    Bind.bind, Except.bind, truthy, h1, h2, htr, pyStr]
  by_cases hts : ts = []
  · subst hts
    simp
    rfl
  · rw [if_neg hts]
    simp [pySliceN, ← List.map_take, historyLoop_mkHist]
    rfl

/-- Witness for the amended C6 at concrete inputs: seven changelog
entries, of which only the first five contribute lines. -/
theorem issue_content_structure_witness :
    ("Fix pump" : String) ≠ "" ∧ ("Broken valve" : String) ≠ "" ∧
    extract_issue_content (mkFullIssue "Fix pump" "Broken valve"
        (["t1", "t2", "t3", "t4", "t5", "t6", "t7"].map mkHist)) =
      .ok (String.intercalate " "
        (["Summary: " ++ "Fix pump", "Description: " ++ "Broken valve"] ++
          (["t1", "t2", "t3", "t4", "t5", "t6", "t7"].take 5).map
            (fun t => "Update: " ++ t))) :=
  ⟨by decide, by decide, issue_content_structure "Fix pump" "Broken valve"
    ["t1", "t2", "t3", "t4", "t5", "t6", "t7"] (by decide) (by decide)⟩

/-! ## Document processor and CLI (`document_processor.py`, `cli.py`) -/

/-- The unified document record of `DocumentProcessor`. -/
structure Document where
  id : JVal
  title : JVal
  content : JVal
  source : JVal
  source_type : String
  metadata : List (String × JVal)
  document_type : String
  indexed_at : String
deriving Repr

/-- `DocumentProcessor.format_confluence_document(page)`; `indexed_at` is
the injected current time (`datetime.now().isoformat()`). -/
def format_confluence_document (page : PageData) (now : String) : Document :=
  { id := page.id, title := page.title, content := page.content,
    source := page.url, source_type := "confluence",
    metadata := [("space", page.space), ("url", page.url),
                 ("created", page.created), ("modified", page.modified),
                 ("depth", .num page.depth)],
    document_type := "wiki_page", indexed_at := now }

/-- `DocumentProcessor.format_jira_document(issue)`. -/
def format_jira_document (issue : IssueData) (now : String) : Document :=
  { id := issue.id, title := .str (pyStr issue.key ++ ": " ++ pyStr issue.title),
    content := .str issue.content, source := .str issue.url, source_type := "jira",
    metadata := [("key", issue.key), ("project", issue.project),
                 ("status", issue.status), ("issue_type", issue.issue_type),
                 ("url", .str issue.url), ("created", issue.created),
                 ("updated", issue.updated), ("assignee", issue.assignee)],
    document_type := "issue", indexed_at := now }

/-- `DocumentProcessor.merge_documents`: plain concatenation, Confluence
first. -/
def merge_documents (confluence_docs jira_docs : List Document) : List Document :=
  confluence_docs ++ jira_docs

/-- `DocumentProcessor.save_to_json(documents, output_path)`: the injected
`writeResult` is the outcome of opening the file and serializing
(`Except.error` = an `IOError`/`OSError` was raised); the `try`/`except`
catches every error, logs it, and falls through — the function always
returns normally. -/
def save_to_json (writeResult : Except Unit Unit) : Except Unit Unit :=
  match writeResult with
  | .ok _ => .ok ()
  | .error _ => .ok ()

/-- `DocumentProcessor.load_from_json(file_path)`: the injected
`readResult` is the outcome of opening and parsing the file
(`Except.error` = the file is absent, unreadable, or invalid JSON). Any
raised error — including `len()` failing on a scalar JSON value inside the
`try` — yields the empty list. -/
def load_from_json (readResult : Except Unit JVal) : JVal :=
  match readResult with
  | .error _ => .arr []
  | .ok docs =>
    match pyLen docs with
    | .ok _ => docs
    | .error _ => .arr []

/-- The `scrape` command of `cli.py` (lines 41-87): fetch the hierarchy,
optionally collect the Jira issues, format everything, save; any exception
escaping the `try` exits with code 1, otherwise the run exits 0. -/
def scrape (cEnv : ConfEnv) (jEnv : JiraEnv) (confluence_page_id : JVal) (max_depth : Int)
    (include_jira : Bool) (now : String) (writeResult : Except Unit Unit) :
    List Document × Nat :=
  let confluence_pages := get_page_hierarchy cEnv confluence_page_id max_depth
  let confluence_docs := confluence_pages.map (fun p => format_confluence_document p now)
  let jira_docs :=
    if include_jira then (cliJiraIssues jEnv).map (fun i => format_jira_document i now)
    else []
  let all_documents := confluence_docs ++ jira_docs
  match save_to_json writeResult with
  | .ok _ => (all_documents, 0)
  | .error _ => (all_documents, 1)

/-- Outcome of the `search` command: early return with "No documents
found", a result listing, or an uncaught exception. -/
inductive SearchOutcome where
  | noDocuments
  | results (docs : List JVal)
  | raised
deriving Repr

/-- The per-document filter of `search` (line 105): the lowercased query
must occur in the lowercased title or content; `or` short-circuits, so a
matching title never touches the content. -/
def searchMatch (ql : String) (d : JVal) : Except Unit Bool := do
  let tJ ← pyGet d "title" (JVal.str "")
  let t ← pyLower tJ
  if containsSeq ql.data t.data then pure true
  else do
    let cJ ← pyGet d "content" (JVal.str "")
    let c ← pyLower cJ
    pure (containsSeq ql.data c.data)

def searchFilter (ql : String) : List JVal → Except Unit (List JVal)
  | [] => .ok []
  | d :: rest => do
    let keep ← searchMatch ql d
    let more ← searchFilter ql rest
    pure (if keep then d :: more else more)

/-- The `search` command of `cli.py` (lines 90-111): load, bail out with
"No documents found" on a falsy collection, else filter and show the first
ten results. -/
def search (query : String) (readResult : Except Unit JVal) : SearchOutcome :=
  let documents := load_from_json readResult
  if truthy documents = false then .noDocuments
  else
    match pyIter documents with
    | .error _ => .raised
    | .ok ds =>
      match searchFilter (pyLowerString query) ds with
      | .error _ => .raised
      | .ok results => .results (results.take 10)

/-- C2 (counterexample): a failing write on the demo pipeline — the
persist step reports success and the run exits with status 0, so the
failure is neither surfaced nor does it terminate the run with a non-zero
status. -/
theorem persistence_failure_counterexample :
    save_to_json (.error ()) = .ok () ∧
    (scrape confDemoEnv jiraDemoEnv (JVal.str "100") 1 true "2024" (.error ())).2 = 0 :=
  ⟨rfl, rfl⟩

/-- C2 (amended): `save_to_json` catches and logs every I/O error and
returns normally — the failure is swallowed at this layer, and the scrape
run always terminates with exit status 0 regardless of the write
outcome. -/
theorem persistence_failure_swallowed (cEnv : ConfEnv) (jEnv : JiraEnv) (pid : JVal)
    (md : Int) (ij : Bool) (now : String) (w : Except Unit Unit) :
    save_to_json w = .ok () ∧ (scrape cEnv jEnv pid md ij now w).2 = 0 := by
  constructor
  · cases w with
    | ok u => rfl
    | error e => rfl
  · rw [scrape]
    cases w with
    | ok u => rfl
    | error e => rfl

/-- C10: when the file is absent, unreadable, or invalid JSON,
`load_from_json` returns the empty list instead of raising, and the search
command over such a collection reports "No documents found" instead of
crashing. -/
theorem load_failure_yields_empty (q : String) :
    load_from_json (.error ()) = JVal.arr [] ∧
    search q (.error ()) = .noDocuments :=
  ⟨rfl, rfl⟩

end Scraper
